import Mathlib

/-!
# Verification of the semantic-normalization layer of `ParsedQuery`

This file gives a shallow embedding of the `ParsedQuery` class from
`src/parser/ParsedQuery.h` (the semantic-normalization layer of the SPARQL
front end) and proves properties about it.

The header file declares the class and contains the inline bodies of the
clause predicates and accessors (`hasSelectClause`, `selectClause`, …,
implemented over a `std::variant`), of `warnings()` and `addWarning`.  The
bodies of the remaining member functions live in a `ParsedQuery.cpp` that is
not part of the excerpt; those operations are modelled from the
specification, as indicated by their doc comments.
-/

namespace QLever

/-- A SPARQL variable: an opaque identifier, equality by name
(`parser/data/Variable`, abstracted by the spec as "a unique token"). -/
structure Variable where
  name : String
deriving DecidableEq, Repr

/-- Modelled from the spec: this layer treats expressions as opaque values
with two capabilities, "the ordered sequence of variables it references" and
"does this expression contain an aggregate".  For the grouped-legality check
each referenced variable occurrence is additionally tagged with whether it
occurs as the sole argument of an aggregate sub-expression (`COUNT(?x)`,
`AVG(?x)`, …).  An expression is embedded as that tagged occurrence list. -/
structure Expression where
  occurrences : List (Variable × Bool)
deriving DecidableEq, Repr

/-- The ordered sequence of variables the expression references. -/
def Expression.referencedVariables (e : Expression) : List Variable :=
  e.occurrences.map (·.1)

/-- Whether the expression contains an aggregate sub-expression. -/
def Expression.containsAggregate (e : Expression) : Bool :=
  e.occurrences.any (·.2)

/-- The error taxonomy of the layer (spec §7), plus the programming-error
class raised by accessing the wrong `std::variant` alternative
(`std::bad_variant_access` in the source). -/
inductive QueryError where
  | UnboundVariableError (msg : String)
  | UngroupedVariableError (variable_ : Variable) (clause : String)
  | InvalidModifierError (msg : String)
  | BadVariantAccess
deriving DecidableEq, Repr

/-- A filter as used by HAVING clauses (`parser/data/SparqlFilter`): carries
the filter expression. -/
structure SparqlFilter where
  expression : Expression
deriving DecidableEq, Repr

/-- An ORDER BY key before processing: a bare variable or an expression
(spec §4.4, `parser/data/OrderKey`). -/
inductive OrderKey where
  | var (v : Variable)
  | expr (e : Expression)
deriving DecidableEq, Repr

/-- A GROUP BY key before processing: a bare variable or an expression
(spec §4.4, `parser/data/GroupKey`). -/
inductive GroupKey where
  | var (v : Variable)
  | expr (e : Expression)
deriving DecidableEq, Repr

/-- An alias of a SELECT clause (`parser/Alias`): an expression together with
the output variable it is bound to. -/
structure Alias where
  expression : Expression
  outVariable : Variable
deriving DecidableEq, Repr

/-- Modelled from the spec: the Select clause payload — ordered list of
output aliases plus the distinct/reduced flags (`parser/SelectClause.h` is
not part of the excerpt). -/
structure SelectClause where
  aliases : List Alias
  distinct_ : Bool := false
  reduced_ : Bool := false
deriving DecidableEq, Repr

/-- Modelled from the spec: the Construct clause payload, an opaque output
triple template (`parser/ConstructClause.h` is not part of the excerpt). -/
structure ConstructClause where
  template : String
deriving DecidableEq, Repr

/-- Modelled from the spec: the Update clause payload, an opaque update
operation (`parser/UpdateClause.h` is not part of the excerpt). -/
structure UpdateClause where
  payload : String
deriving DecidableEq, Repr

/-- ASK queries have no further context in the header, so the source uses an
empty struct (`ParsedQuery::AskClause`). -/
structure AskClause where
deriving DecidableEq, Repr

/-- `ParsedQuery::HeaderClause`: the closed variant
`std::variant<SelectClause, ConstructClause, UpdateClause, AskClause>`. -/
inductive HeaderClause where
  | select (c : SelectClause)
  | construct (c : ConstructClause)
  | update (c : UpdateClause)
  | ask (c : AskClause)
deriving DecidableEq, Repr

/-- A node of the pattern tree.  The layer only consumes two capabilities of
the tree (spec §3): the variables a subtree makes visible, and appending a
child operation; synthetic BIND nodes are the only nodes this layer creates,
all other operations stay opaque. -/
inductive GraphPatternOperation where
  | bind (expression : Expression) (target : Variable)
  | opaqueOp (tag : String)
deriving DecidableEq, Repr

/-- The root graph pattern: an ordered sequence of child operations
(`parsedQuery::GraphPattern`, field `_graphPatterns`). -/
structure GraphPattern where
  graphPatterns : List GraphPatternOperation
deriving DecidableEq, Repr

/-- The state of one `ParsedQuery` instance: the fields of the C++ class
that the verified operations touch, plus

* `visibleVariables_`: the variable-visibility tracker (spec §4.1; in the
  source kept behind `registerVariableVisibleInQueryBody` /
  `getVisibleVariables`, whose bodies are not part of the excerpt);
* `implicitGroupByActive`: the "implicit grouping" flag recorded by
  ORDER BY processing (spec §4.4);
* `strictPolicy`: the process-wide strict/lenient configuration, modelled as
  an explicit value threaded in at construction time (spec §9). -/
structure ParsedQuery where
  rootGraphPattern : GraphPattern := ⟨[]⟩
  havingClauses : List SparqlFilter := []
  numInternalVariables : Nat := 0
  orderBy : List (Variable × Bool) := []
  groupByVariables : List Variable := []
  warnings_ : List String := []
  clause : HeaderClause := .select {aliases := []}
  visibleVariables_ : List Variable := []
  implicitGroupByActive : Bool := false
  strictPolicy : Bool := false
deriving DecidableEq, Repr

namespace ParsedQuery

/-- `ParsedQuery::hasSelectClause`: `std::holds_alternative<SelectClause>`. -/
def hasSelectClause (q : ParsedQuery) : Bool :=
  match q.clause with
  | .select _ => true
  | _ => false

/-- `ParsedQuery::hasConstructClause`. -/
def hasConstructClause (q : ParsedQuery) : Bool :=
  match q.clause with
  | .construct _ => true
  | _ => false

/-- `ParsedQuery::hasUpdateClause`. -/
def hasUpdateClause (q : ParsedQuery) : Bool :=
  match q.clause with
  | .update _ => true
  | _ => false

/-- `ParsedQuery::hasAskClause`. -/
def hasAskClause (q : ParsedQuery) : Bool :=
  match q.clause with
  | .ask _ => true
  | _ => false

/-- `ParsedQuery::selectClause`: `std::get<SelectClause>(_clause)`, which
throws `std::bad_variant_access` when a different alternative is active. -/
def selectClause (q : ParsedQuery) : Except QueryError SelectClause :=
  match q.clause with
  | .select c => .ok c
  | _ => .error .BadVariantAccess

/-- `ParsedQuery::constructClause`: `std::get<ConstructClause>(_clause)`. -/
def constructClause (q : ParsedQuery) : Except QueryError ConstructClause :=
  match q.clause with
  | .construct c => .ok c
  | _ => .error .BadVariantAccess

/-- `ParsedQuery::updateClause`: `std::get<UpdateClause>(_clause)`. -/
def updateClause (q : ParsedQuery) : Except QueryError UpdateClause :=
  match q.clause with
  | .update c => .ok c
  | _ => .error .BadVariantAccess

/-- `ParsedQuery::warnings`: returns `warnings_`. -/
def warnings (q : ParsedQuery) : List String :=
  q.warnings_

/-- `ParsedQuery::addWarning`: appends to `warnings_`. -/
def addWarning (q : ParsedQuery) (warning : String) : ParsedQuery :=
  { q with warnings_ := q.warnings_ ++ [warning] }

/-- Modelled from the spec: `ParsedQuery::addWarningOrThrow` (body not part
of the excerpt) — the one policy fork of the layer: under strict
configuration the soft violation escalates to `UnboundVariableError`
carrying the message, under lenient configuration the message is appended
as a warning. -/
def addWarningOrThrow (q : ParsedQuery) (warning : String) :
    Except QueryError ParsedQuery :=
  if q.strictPolicy then .error (.UnboundVariableError warning)
  else .ok (q.addWarning warning)

/-- `ParsedQuery::children`: the children of the root graph pattern. -/
def children (q : ParsedQuery) : List GraphPatternOperation :=
  q.rootGraphPattern.graphPatterns

/-- Modelled from the spec: `ParsedQuery::registerVariableVisibleInQueryBody`
(body not part of the excerpt) — marks a variable as bound in the query
body; idempotent, order of first registration is kept. -/
def registerVariableVisibleInQueryBody (q : ParsedQuery) (variable_ : Variable) :
    ParsedQuery :=
  if variable_ ∈ q.visibleVariables_ then q
  else { q with visibleVariables_ := q.visibleVariables_ ++ [variable_] }

/-- Modelled from the spec: `ParsedQuery::registerVariablesVisibleInQueryBody`
— bulk form of registration, applied in order. -/
def registerVariablesVisibleInQueryBody (q : ParsedQuery)
    (vars : List Variable) : ParsedQuery :=
  vars.foldl registerVariableVisibleInQueryBody q

/-- Modelled from the spec: `ParsedQuery::getVisibleVariables` (body not
part of the excerpt) — all variables visible in the query body, in the
order first registered. -/
def getVisibleVariables (q : ParsedQuery) : List Variable :=
  q.visibleVariables_

end ParsedQuery

/-- The decimal digits of a number, most significant first (empty for `0`);
the building block of `decRepr` below. -/
def decChars : Nat → List Char
  | 0 => []
  | n + 1 => decChars ((n + 1) / 10) ++ [Nat.digitChar ((n + 1) % 10)]
decreasing_by exact Nat.div_lt_self (Nat.succ_pos n) (by norm_num)

/-- Decimal rendering of a natural number (`std::to_string` in the source). -/
def decRepr (n : Nat) : String :=
  if n = 0 then "0" else String.mk (decChars n)

/-- Modelled from the spec: the reserved mark that starts every internal
variable name and is illegal in user-facing variable syntax. -/
def reservedBase : String := "?_QLever_internal_"

/-- Modelled from the spec: the fixed base of counter-derived internal
variable names. -/
def internalVariableBase : String := "?_QLever_internal_variable_"

/-- Modelled from the spec: the fixed base of blank-node-derived internal
variable names; distinct from `internalVariableBase` so that the two
families can never collide. -/
def blankNodeBase : String := "?_QLever_internal_blank_node_"

/-- The counter-derived internal variable name: the fixed internal base
followed by the decimal counter value. -/
def mkInternalVariable (n : Nat) : Variable :=
  ⟨internalVariableBase ++ decRepr n⟩

namespace ParsedQuery

/-- Modelled from the spec: `ParsedQuery::getNewInternalVariable` (body not
part of the excerpt) — returns the variable derived from the current
counter value and increments the counter. -/
def getNewInternalVariable (q : ParsedQuery) : Variable × ParsedQuery :=
  (mkInternalVariable q.numInternalVariables,
   { q with numInternalVariables := q.numInternalVariables + 1 })

/-- Modelled from the spec: `ParsedQuery::blankNodeToInternalVariable` (body
not part of the excerpt) — turns a blank node `_:someBlankNode` into the
internal variable `?<base>_someBlankNode`: a reserved-base encoding of the
label itself (the leading `_:` is stripped), not counter-based. -/
def blankNodeToInternalVariable (blankNode : String) : Variable :=
  ⟨blankNodeBase ++ String.mk (blankNode.data.drop 2)⟩

/-- Modelled from the spec: `ParsedQuery::addBind` (body not part of the
excerpt) — appends a BIND node to the children of the root graph pattern;
the target variable becomes visible only when `targetIsVisible` is set. -/
def addBind (q : ParsedQuery) (expression : Expression)
    (targetVariable : Variable) (targetIsVisible : Bool) : ParsedQuery :=
  let q' := { q with
    rootGraphPattern :=
      ⟨q.rootGraphPattern.graphPatterns ++ [.bind expression targetVariable]⟩ }
  if targetIsVisible then q'.registerVariableVisibleInQueryBody targetVariable
  else q'

/-- Modelled from the spec: `ParsedQuery::addInternalBind` (body not part of
the excerpt) — generates an internal BIND binding the given expression,
adds it to the query as a child and returns the fresh variable the
expression is bound to. -/
def addInternalBind (q : ParsedQuery) (expression : Expression) :
    Variable × ParsedQuery :=
  let (v, q') := q.getNewInternalVariable
  (v, q'.addBind expression v false)

/-- Modelled from the spec: `ParsedQuery::checkVariableIsVisible` (body not
part of the excerpt) — if the variable is not visible in the query body,
add a warning or throw (see `addWarningOrThrow`) with a message naming the
variable and the location description. -/
def checkVariableIsVisible (q : ParsedQuery) (variable_ : Variable)
    (locationDescription : String) : Except QueryError ParsedQuery :=
  if variable_ ∈ q.visibleVariables_ then .ok q
  else
    q.addWarningOrThrow ("Variable " ++ variable_.name ++ " was used by " ++
      locationDescription ++ ", but is not defined in the query body.")

end ParsedQuery

/-- Modelled from the spec: the loop of `checkUsedVariablesAreVisible` —
apply the single-variable visibility check to each variable, in the
expression's variable order. -/
def checkVarsVisible (locationDescription : String) :
    ParsedQuery → List Variable → Except QueryError ParsedQuery
  | q, [] => .ok q
  | q, v :: vs =>
    match q.checkVariableIsVisible v locationDescription with
    | .error e => .error e
    | .ok q' => checkVarsVisible locationDescription q' vs

namespace ParsedQuery

/-- Modelled from the spec: `ParsedQuery::checkUsedVariablesAreVisible`
(body not part of the excerpt) — the visibility check applied to each
variable used inside the expression. -/
def checkUsedVariablesAreVisible (q : ParsedQuery) (expression : Expression)
    (locationDescription : String) : Except QueryError ParsedQuery :=
  checkVarsVisible locationDescription q expression.referencedVariables

end ParsedQuery

/-- The first variable occurrence of the expression that is neither inside
an aggregate nor a grouping key, if any. -/
def findUngrouped (groupKeys : List Variable) (e : Expression) :
    Option Variable :=
  (e.occurrences.find? (fun occ => !(occ.2 || groupKeys.contains occ.1))).map (·.1)

/-- Modelled from the spec: the grouped-legality check shared by HAVING and
ORDER BY — every variable the expression references must be a grouping key
or the sole argument of an aggregate sub-expression; otherwise fail with
`UngroupedVariableError` naming the offending variable and the clause. -/
def checkGroupedLegality (groupKeys : List Variable) (e : Expression)
    (clause : String) : Except QueryError Unit :=
  match findUngrouped groupKeys e with
  | some v => .error (.UngroupedVariableError v clause)
  | none => .ok ()

/-- Modelled from the spec: the per-filter loop of `addHavingClause` —
apply the grouped-legality check to each filter expression in order. -/
def checkHavingFilters (groupKeys : List Variable) :
    List SparqlFilter → Except QueryError Unit
  | [] => .ok ()
  | f :: fs =>
    match checkGroupedLegality groupKeys f.expression "HAVING" with
    | .error e => .error e
    | .ok () => checkHavingFilters groupKeys fs

namespace ParsedQuery

/-- Modelled from the spec: `ParsedQuery::addHavingClause` (body not part of
the excerpt) — fails with `InvalidModifierError` ("HAVING without GROUP
BY") if `isGroupBy` is false and the filters are non-empty; otherwise every
variable used by a filter must be grouped or aggregated. -/
def addHavingClause (q : ParsedQuery) (havingClause : List SparqlFilter)
    (isGroupBy : Bool) : Except QueryError ParsedQuery :=
  if !isGroupBy && !havingClause.isEmpty then
    .error (.InvalidModifierError "HAVING without GROUP BY")
  else
    match checkHavingFilters q.groupByVariables havingClause with
    | .error e => .error e
    | .ok () => .ok { q with havingClauses := q.havingClauses ++ havingClause }

end ParsedQuery

/-- Modelled from the spec: processing of one GROUP BY key — a bare variable
is checked visible and appended to `groupByVariables`; an expression key is
desugared into an internal BIND whose variable is appended instead. -/
def processGroupKey (q : ParsedQuery) (key : GroupKey) :
    Except QueryError ParsedQuery :=
  match key with
  | .var v =>
    match q.checkVariableIsVisible v "GROUP BY" with
    | .error e => .error e
    | .ok q' => .ok { q' with groupByVariables := q'.groupByVariables ++ [v] }
  | .expr e =>
    let (v, q') := q.addInternalBind e
    .ok { q' with groupByVariables := q'.groupByVariables ++ [v] }

/-- Modelled from the spec: the loop of `addGroupByClause` over the keys. -/
def processGroupKeys : ParsedQuery → List GroupKey → Except QueryError ParsedQuery
  | q, [] => .ok q
  | q, k :: ks =>
    match processGroupKey q k with
    | .error e => .error e
    | .ok q' => processGroupKeys q' ks

namespace ParsedQuery

/-- Modelled from the spec: `ParsedQuery::addGroupByClause` (body not part
of the excerpt) — add the group keys to the query, checking visibility of
bare-variable keys and desugaring expression keys into internal BINDs. -/
def addGroupByClause (q : ParsedQuery) (groupKeys : List GroupKey) :
    Except QueryError ParsedQuery :=
  processGroupKeys q groupKeys

end ParsedQuery

/-- Modelled from the spec: processing of one ORDER BY key.  Bare-variable
keys get the grouped-or-aggregate legality check when grouping is active
and a visibility check otherwise; expression keys are desugared into an
internal BIND whose variable is referenced by the resulting order key.  An
expression key containing an aggregate while no explicit GROUP BY was given
activates implicit grouping, recorded in `implicitGroupByActive`. -/
def processOrderKey (isGroupBy : Bool) (q : ParsedQuery) (key : OrderKey)
    (isDescending : Bool) : Except QueryError ParsedQuery :=
  match key with
  | .var v =>
    if isGroupBy then
      if v ∈ q.groupByVariables then
        .ok { q with orderBy := q.orderBy ++ [(v, isDescending)] }
      else .error (.UngroupedVariableError v "ORDER BY")
    else
      match q.checkVariableIsVisible v "ORDER BY" with
      | .error e => .error e
      | .ok q' => .ok { q' with orderBy := q'.orderBy ++ [(v, isDescending)] }
  | .expr e =>
    if isGroupBy then
      match checkGroupedLegality q.groupByVariables e "ORDER BY" with
      | .error err => .error err
      | .ok () =>
        let (v, q') := q.addInternalBind e
        .ok { q' with orderBy := q'.orderBy ++ [(v, isDescending)] }
    else
      match (if e.containsAggregate then { q with implicitGroupByActive := true }
             else q).checkUsedVariablesAreVisible e "ORDER BY" with
      | .error err => .error err
      | .ok q2 =>
        let (v, q3) := q2.addInternalBind e
        .ok { q3 with orderBy := q3.orderBy ++ [(v, isDescending)] }

/-- Modelled from the spec: the loop of `addOrderByClause` over the keys. -/
def processOrderKeys (isGroupBy : Bool) :
    ParsedQuery → List (OrderKey × Bool) → Except QueryError ParsedQuery
  | q, [] => .ok q
  | q, (k, d) :: ks =>
    match processOrderKey isGroupBy q k d with
    | .error e => .error e
    | .ok q' => processOrderKeys isGroupBy q' ks

namespace ParsedQuery

/-- Modelled from the spec: `ParsedQuery::addOrderByClause` (body not part
of the excerpt) — add the order keys to the query; fails if a key uses a
variable that is not visible or (with a GROUP BY) neither grouped nor
aggregated.  The note for implicit GROUP BY is part of the diagnostics
only, so it does not influence the resulting state. -/
def addOrderByClause (q : ParsedQuery) (orderClause : List (OrderKey × Bool))
    (isGroupBy : Bool) (_noteForImplicitGroupBy : String) :
    Except QueryError ParsedQuery :=
  processOrderKeys isGroupBy q orderClause

/-- Modelled from the spec: `ParsedQuery::getAliases` (body not part of the
excerpt) — the selected aliases for a SELECT query, the empty list for
non-Select clauses. -/
def getAliases (q : ParsedQuery) : List Alias :=
  match q.clause with
  | .select c => c.aliases
  | _ => []

end ParsedQuery

/-- The reserved-mark test: a name starts with the reserved internal mark
(`reservedBase`); user-facing variable syntax cannot produce such names. -/
def startsWithReserved (s : String) : Prop :=
  s.data.take reservedBase.data.length = reservedBase.data

instance (s : String) : Decidable (startsWithReserved s) := by
  unfold startsWithReserved
  infer_instance

/-- One public operation of the layer, used to state invariants that hold
"across any operation" of a `ParsedQuery`. -/
inductive Operation where
  | registerVisible (v : Variable)
  | registerVisibles (vs : List Variable)
  | warnOp (m : String)
  | warnOrThrowOp (m : String)
  | groupByOp (keys : List GroupKey)
  | havingOp (filters : List SparqlFilter) (isGroupBy : Bool)
  | orderByOp (keys : List (OrderKey × Bool)) (isGroupBy : Bool)
      (note : String)
  | newInternalVariableOp
  | internalBindOp (e : Expression)

/-- Apply one operation to the query state (the returned variable of
`getNewInternalVariable` / `addInternalBind` is dropped, only the state
evolution matters here). -/
def applyOperation (q : ParsedQuery) : Operation → Except QueryError ParsedQuery
  | .registerVisible v => .ok (q.registerVariableVisibleInQueryBody v)
  | .registerVisibles vs => .ok (q.registerVariablesVisibleInQueryBody vs)
  | .warnOp m => .ok (q.addWarning m)
  | .warnOrThrowOp m => q.addWarningOrThrow m
  | .groupByOp ks => q.addGroupByClause ks
  | .havingOp fs g => q.addHavingClause fs g
  | .orderByOp ks g note => q.addOrderByClause ks g note
  | .newInternalVariableOp => .ok (q.getNewInternalVariable).2
  | .internalBindOp e => .ok (q.addInternalBind e).2

/-- The sequence of variables returned by `n` consecutive calls of
`getNewInternalVariable` starting from `q`. -/
def iterateNewInternal (q : ParsedQuery) : Nat → List Variable
  | 0 => []
  | n + 1 =>
    let (v, q') := q.getNewInternalVariable
    v :: iterateNewInternal q' n

/-! ## Helper lemmas about the grouped-legality check -/

theorem checkGroupedLegality_ok_iff (ks : List Variable) (e : Expression)
    (c : String) :
    checkGroupedLegality ks e c = .ok () ↔
      ∀ occ ∈ e.occurrences, occ.2 = true ∨ occ.1 ∈ ks := by
  unfold checkGroupedLegality findUngrouped
  cases h : e.occurrences.find? (fun occ => !(occ.2 || ks.contains occ.1)) with
  | none =>
    simp only [List.find?_eq_none] at h
    simp only [Option.map_none']
    constructor
    · intro _ occ hocc
      have h2 : (occ.2 || ks.contains occ.1) = true := by
        have h3 := h occ hocc
        revert h3
        cases occ.2 || ks.contains occ.1 <;> simp
      rw [Bool.or_eq_true] at h2
      rcases h2 with h3 | h3
      · exact Or.inl h3
      · exact Or.inr (by simpa using h3)
    · intro _; trivial
  | some occ =>
    have hp := List.find?_some h
    have hm := List.mem_of_find?_eq_some h
    simp only [Bool.not_eq_true', Bool.or_eq_false_iff] at hp
    simp only [Option.map_some']
    constructor
    · intro habs; cases habs
    · intro hall
      rcases hall occ hm with h1 | h1
      · rw [h1] at hp; simp at hp
      · have : ks.contains occ.1 = true := by
          simpa using h1
        rw [this] at hp; simp at hp

theorem checkGroupedLegality_error (ks : List Variable) (e : Expression)
    (c : String) (err : QueryError)
    (h : checkGroupedLegality ks e c = .error err) :
    ∃ occ ∈ e.occurrences, occ.2 = false ∧ occ.1 ∉ ks ∧
      err = .UngroupedVariableError occ.1 c := by
  unfold checkGroupedLegality findUngrouped at h
  cases hf : e.occurrences.find? (fun occ => !(occ.2 || ks.contains occ.1)) with
  | none => rw [hf] at h; simp at h
  | some occ =>
    rw [hf] at h
    have hp := List.find?_some hf
    have hm := List.mem_of_find?_eq_some hf
    simp only [Bool.not_eq_true', Bool.or_eq_false_iff] at hp
    simp only [Option.map_some'] at h
    refine ⟨occ, hm, hp.1, ?_, ?_⟩
    · intro hmem
      have : ks.contains occ.1 = true := by simpa using hmem
      rw [this] at hp; simp at hp
    · simp only [Except.error.injEq] at h
      exact h.symm

theorem checkHavingFilters_ok_iff (ks : List Variable)
    (fs : List SparqlFilter) :
    checkHavingFilters ks fs = .ok () ↔
      ∀ f ∈ fs, ∀ occ ∈ f.expression.occurrences,
        occ.2 = true ∨ occ.1 ∈ ks := by
  induction fs with
  | nil => simp [checkHavingFilters]
  | cons f fs ih =>
    unfold checkHavingFilters
    cases hc : checkGroupedLegality ks f.expression "HAVING" with
    | error err =>
      constructor
      · intro habs; exact Except.noConfusion habs
      · intro hall
        have h2 : checkGroupedLegality ks f.expression "HAVING" = .ok () := by
          rw [checkGroupedLegality_ok_iff]
          exact fun occ hocc => hall f (by simp) occ hocc
        rw [hc] at h2; exact Except.noConfusion h2
    | ok u =>
      cases u
      show checkHavingFilters ks fs = Except.ok () ↔ _
      rw [checkGroupedLegality_ok_iff] at hc
      simp only [ih, List.mem_cons]
      constructor
      · rintro hall f' (rfl | hf') occ hocc
        · exact hc occ hocc
        · exact hall f' hf' occ hocc
      · intro hall f' hf' occ hocc
        exact hall f' (Or.inr hf') occ hocc

theorem checkHavingFilters_error (ks : List Variable)
    (fs : List SparqlFilter) (err : QueryError)
    (h : checkHavingFilters ks fs = .error err) :
    ∃ f ∈ fs, ∃ occ ∈ f.expression.occurrences, occ.2 = false ∧
      occ.1 ∉ ks ∧ err = .UngroupedVariableError occ.1 "HAVING" := by
  induction fs with
  | nil => simp [checkHavingFilters] at h
  | cons f fs ih =>
    unfold checkHavingFilters at h
    cases hc : checkGroupedLegality ks f.expression "HAVING" with
    | error err' =>
      rw [hc] at h
      simp only [Except.error.injEq] at h
      subst h
      obtain ⟨occ, hm, h1, h2, h3⟩ :=
        checkGroupedLegality_error ks f.expression "HAVING" err' hc
      exact ⟨f, by simp, occ, hm, h1, h2, h3⟩
    | ok u =>
      cases u
      rw [hc] at h
      obtain ⟨f', hf', rest⟩ := ih h
      exact ⟨f', by simp [hf'], rest⟩

/-- **C2.** `addHavingClause` with `isGroupBy = false` and non-empty filters
fails with `InvalidModifierError` ("HAVING without GROUP BY"); with
`isGroupBy = true` it never fails with an `InvalidModifierError`. -/
theorem addHavingClause_invalid_modifier (q : ParsedQuery)
    (filters : List SparqlFilter) :
    (filters ≠ [] →
      q.addHavingClause filters false =
        .error (.InvalidModifierError "HAVING without GROUP BY")) ∧
    (∀ e, q.addHavingClause filters true = .error e →
      ∀ m, e ≠ .InvalidModifierError m) := by
  constructor
  · intro hne
    unfold ParsedQuery.addHavingClause
    have : filters.isEmpty = false := by
      cases filters with
      | nil => exact absurd rfl hne
      | cons f fs => rfl
    rw [this]
    rfl
  · intro e he m
    unfold ParsedQuery.addHavingClause at he
    simp only [Bool.not_true, Bool.false_and, Bool.false_eq_true, if_false] at he
    cases hc : checkHavingFilters q.groupByVariables filters with
    | error err =>
      rw [hc] at he
      simp only [Except.error.injEq] at he
      subst he
      obtain ⟨f, _, occ, _, _, _, h3⟩ :=
        checkHavingFilters_error q.groupByVariables filters _ hc
      rw [h3]
      intro habs; cases habs
    | ok u => cases u; rw [hc] at he; cases he

/-- Closed witness for `addHavingClause_invalid_modifier` at a concrete
query and filter list. -/
theorem addHavingClause_invalid_modifier_witness :
    ({} : ParsedQuery).addHavingClause [⟨⟨[(⟨"?b"⟩, false)]⟩⟩] false =
      .error (.InvalidModifierError "HAVING without GROUP BY") :=
  (addHavingClause_invalid_modifier {} [⟨⟨[(⟨"?b"⟩, false)]⟩⟩]).1 (by decide)

/-- **C1.** With grouping active, `addHavingClause` succeeds iff every
variable occurrence in every filter is inside an aggregate or a grouping
key, and otherwise fails with `UngroupedVariableError` naming an offending
variable and the HAVING clause. -/
theorem addHavingClause_grouped_legality (q : ParsedQuery)
    (filters : List SparqlFilter) :
    ((∀ f ∈ filters, ∀ occ ∈ f.expression.occurrences,
        occ.2 = true ∨ occ.1 ∈ q.groupByVariables) →
      q.addHavingClause filters true =
        .ok { q with havingClauses := q.havingClauses ++ filters }) ∧
    ((∃ f ∈ filters, ∃ occ ∈ f.expression.occurrences,
        occ.2 = false ∧ occ.1 ∉ q.groupByVariables) →
      ∃ v, (∃ f ∈ filters, ∃ occ ∈ f.expression.occurrences,
          occ.1 = v ∧ occ.2 = false ∧ v ∉ q.groupByVariables) ∧
        q.addHavingClause filters true =
          .error (.UngroupedVariableError v "HAVING")) := by
  constructor
  · intro hall
    unfold ParsedQuery.addHavingClause
    simp only [Bool.not_true, Bool.false_and, Bool.false_eq_true, if_false]
    have : checkHavingFilters q.groupByVariables filters = .ok () :=
      (checkHavingFilters_ok_iff _ _).2 hall
    rw [this]
  · rintro ⟨f, hf, occ, hocc, h1, h2⟩
    unfold ParsedQuery.addHavingClause
    simp only [Bool.not_true, Bool.false_and, Bool.false_eq_true, if_false]
    cases hc : checkHavingFilters q.groupByVariables filters with
    | error err =>
      obtain ⟨f', hf', occ', hocc', g1, g2, g3⟩ :=
        checkHavingFilters_error q.groupByVariables filters err hc
      exact ⟨occ'.1, ⟨f', hf', occ', hocc', rfl, g1, g2⟩, by rw [g3]⟩
    | ok u =>
      cases u
      rw [checkHavingFilters_ok_iff] at hc
      rcases hc f hf occ hocc with h | h
      · rw [h1] at h; cases h
      · exact absurd h h2

/-- Closed witness for `addHavingClause_grouped_legality`: with grouping
keys `[?a]`, the filter `COUNT(?b) > 1` is accepted and the bare filter
`?b > 1` is rejected naming `?b`. -/
theorem addHavingClause_grouped_legality_witness :
    (({ groupByVariables := [⟨"?a"⟩] } : ParsedQuery).addHavingClause
        [⟨⟨[(⟨"?b"⟩, true)]⟩⟩] true =
      .ok { ({ groupByVariables := [⟨"?a"⟩] } : ParsedQuery) with
              havingClauses := [⟨⟨[(⟨"?b"⟩, true)]⟩⟩] }) ∧
    (∃ v, (∃ f ∈ [(⟨⟨[(⟨"?b"⟩, false)]⟩⟩ : SparqlFilter)],
            ∃ occ ∈ f.expression.occurrences,
            occ.1 = v ∧ occ.2 = false ∧ v ∉ [(⟨"?a"⟩ : Variable)]) ∧
      ({ groupByVariables := [⟨"?a"⟩] } : ParsedQuery).addHavingClause
          [⟨⟨[(⟨"?b"⟩, false)]⟩⟩] true =
        .error (.UngroupedVariableError v "HAVING")) :=
  ⟨(addHavingClause_grouped_legality { groupByVariables := [⟨"?a"⟩] }
      [⟨⟨[(⟨"?b"⟩, true)]⟩⟩]).1 (by decide),
   (addHavingClause_grouped_legality { groupByVariables := [⟨"?a"⟩] }
      [⟨⟨[(⟨"?b"⟩, false)]⟩⟩]).2 (by decide)⟩

/-! ## The clause variant (C9, C10) -/

/-- **C9.** Exactly one of the four clause predicates holds for every
`ParsedQuery`, and each accessor returns the stored clause when its
predicate holds and fails (the `std::bad_variant_access` programming-error
class) when it does not. -/
theorem clause_variant_exclusive (q : ParsedQuery) :
    (q.hasSelectClause.toNat + q.hasConstructClause.toNat +
      q.hasUpdateClause.toNat + q.hasAskClause.toNat = 1) ∧
    (q.hasSelectClause = true →
      ∃ c, q.clause = .select c ∧ q.selectClause = .ok c) ∧
    (q.hasSelectClause = false →
      q.selectClause = .error .BadVariantAccess) ∧
    (q.hasConstructClause = true →
      ∃ c, q.clause = .construct c ∧ q.constructClause = .ok c) ∧
    (q.hasConstructClause = false →
      q.constructClause = .error .BadVariantAccess) ∧
    (q.hasUpdateClause = true →
      ∃ c, q.clause = .update c ∧ q.updateClause = .ok c) ∧
    (q.hasUpdateClause = false →
      q.updateClause = .error .BadVariantAccess) := by
  rcases hq : q.clause with c | c | c | c <;>
    simp [ParsedQuery.hasSelectClause, ParsedQuery.hasConstructClause,
      ParsedQuery.hasUpdateClause, ParsedQuery.hasAskClause,
      ParsedQuery.selectClause, ParsedQuery.constructClause,
      ParsedQuery.updateClause, hq]

/-- Closed witness for `clause_variant_exclusive`: on a query holding a
Construct clause, the Select accessor fails and the Construct accessor
returns the stored clause. -/
theorem clause_variant_exclusive_witness :
    ({ clause := .construct ⟨"T"⟩ } : ParsedQuery).selectClause =
        .error .BadVariantAccess ∧
      ∃ c, ({ clause := .construct ⟨"T"⟩ } : ParsedQuery).clause =
          .construct c ∧
        ({ clause := .construct ⟨"T"⟩ } : ParsedQuery).constructClause =
          .ok c :=
  ⟨(clause_variant_exclusive { clause := .construct ⟨"T"⟩ }).2.2.1 rfl,
   (clause_variant_exclusive { clause := .construct ⟨"T"⟩ }).2.2.2.1 rfl⟩

/-- **C10.** `getAliases` returns exactly the Select clause's alias list
when the active clause is Select, and the empty sequence otherwise. -/
theorem getAliases_select_or_empty (q : ParsedQuery) :
    (∀ c, q.clause = .select c → q.getAliases = c.aliases) ∧
    (q.hasSelectClause = false → q.getAliases = []) := by
  rcases hq : q.clause with c | c | c | c <;>
    simp [ParsedQuery.getAliases, ParsedQuery.hasSelectClause, hq]

/-- Closed witness for `getAliases_select_or_empty`: a Select query with one
alias returns it; an Ask query returns the empty list. -/
theorem getAliases_select_or_empty_witness :
    ({ clause := .select { aliases := [⟨⟨[]⟩, ⟨"?x"⟩⟩] } } : ParsedQuery).getAliases
        = [⟨⟨[]⟩, ⟨"?x"⟩⟩] ∧
      ({ clause := .ask {} } : ParsedQuery).getAliases = [] :=
  ⟨(getAliases_select_or_empty
      { clause := .select { aliases := [⟨⟨[]⟩, ⟨"?x"⟩⟩] } }).1 _ rfl,
   (getAliases_select_or_empty { clause := .ask {} }).2 rfl⟩

/-! ## Preservation lemmas for the state-passing operations -/

theorem checkVariableIsVisible_ok_cases (q : ParsedQuery) (v : Variable)
    (loc : String) (q' : ParsedQuery)
    (h : q.checkVariableIsVisible v loc = .ok q') :
    q' = q ∨ ∃ w, q' = q.addWarning w := by
  unfold ParsedQuery.checkVariableIsVisible at h
  by_cases hv : v ∈ q.visibleVariables_
  · rw [if_pos hv] at h
    simp only [Except.ok.injEq] at h
    exact Or.inl h.symm
  · rw [if_neg hv] at h
    unfold ParsedQuery.addWarningOrThrow at h
    cases hs : q.strictPolicy with
    | true => rw [hs] at h; simp at h
    | false =>
      rw [hs] at h
      simp only [Bool.false_eq_true, if_false, Except.ok.injEq] at h
      exact Or.inr ⟨_, h.symm⟩

theorem checkVariableIsVisible_core (q : ParsedQuery) (v : Variable)
    (loc : String) (q' : ParsedQuery)
    (h : q.checkVariableIsVisible v loc = .ok q') :
    q'.visibleVariables_ = q.visibleVariables_ ∧
    q'.numInternalVariables = q.numInternalVariables ∧
    q'.orderBy = q.orderBy ∧
    q'.rootGraphPattern = q.rootGraphPattern ∧
    q'.groupByVariables = q.groupByVariables ∧
    q'.havingClauses = q.havingClauses ∧
    q'.implicitGroupByActive = q.implicitGroupByActive := by
  rcases checkVariableIsVisible_ok_cases q v loc q' h with rfl | ⟨w, rfl⟩ <;>
    simp [ParsedQuery.addWarning]

theorem checkVarsVisible_core (loc : String) :
    ∀ (vs : List Variable) (q q' : ParsedQuery),
    checkVarsVisible loc q vs = .ok q' →
    q'.visibleVariables_ = q.visibleVariables_ ∧
    q'.numInternalVariables = q.numInternalVariables ∧
    q'.orderBy = q.orderBy ∧
    q'.rootGraphPattern = q.rootGraphPattern ∧
    q'.groupByVariables = q.groupByVariables ∧
    q'.havingClauses = q.havingClauses ∧
    q'.implicitGroupByActive = q.implicitGroupByActive := by
  intro vs
  induction vs with
  | nil =>
    intro q q' h
    unfold checkVarsVisible at h
    simp only [Except.ok.injEq] at h
    subst h
    simp
  | cons v vs ih =>
    intro q q' h
    unfold checkVarsVisible at h
    cases hc : q.checkVariableIsVisible v loc with
    | error e => rw [hc] at h; exact Except.noConfusion h
    | ok q1 =>
      rw [hc] at h
      obtain ⟨a1, a2, a3, a4, a5, a6, a7⟩ :=
        checkVariableIsVisible_core q v loc q1 hc
      obtain ⟨b1, b2, b3, b4, b5, b6, b7⟩ := ih q1 q' h
      exact ⟨b1.trans a1, b2.trans a2, b3.trans a3, b4.trans a4,
        b5.trans a5, b6.trans a6, b7.trans a7⟩

theorem addInternalBind_core (q : ParsedQuery) (e : Expression) :
    (q.addInternalBind e).1 = mkInternalVariable q.numInternalVariables ∧
    (q.addInternalBind e).2.visibleVariables_ = q.visibleVariables_ ∧
    (q.addInternalBind e).2.numInternalVariables =
      q.numInternalVariables + 1 ∧
    (q.addInternalBind e).2.orderBy = q.orderBy ∧
    (q.addInternalBind e).2.groupByVariables = q.groupByVariables ∧
    (q.addInternalBind e).2.rootGraphPattern.graphPatterns =
      q.rootGraphPattern.graphPatterns ++
        [.bind e (mkInternalVariable q.numInternalVariables)] ∧
    (q.addInternalBind e).2.havingClauses = q.havingClauses ∧
    (q.addInternalBind e).2.implicitGroupByActive =
      q.implicitGroupByActive := by
  simp [ParsedQuery.addInternalBind, ParsedQuery.getNewInternalVariable,
    ParsedQuery.addBind]

theorem processOrderKey_core (g : Bool) (q : ParsedQuery) (k : OrderKey)
    (d : Bool) (q' : ParsedQuery) (h : processOrderKey g q k d = .ok q') :
    q'.visibleVariables_ = q.visibleVariables_ ∧
    q.numInternalVariables ≤ q'.numInternalVariables ∧
    q'.groupByVariables = q.groupByVariables ∧
    q'.havingClauses = q.havingClauses := by
  cases k with
  | var v =>
    simp only [processOrderKey] at h
    split at h
    · split at h
      · simp only [Except.ok.injEq] at h
        subst h
        simp
      · exact Except.noConfusion h
    · cases hc : q.checkVariableIsVisible v "ORDER BY" with
      | error e => rw [hc] at h; exact Except.noConfusion h
      | ok q1 =>
        rw [hc] at h
        simp only [Except.ok.injEq] at h
        subst h
        obtain ⟨a1, a2, _, _, a5, a6, _⟩ :=
          checkVariableIsVisible_core q v "ORDER BY" q1 hc
        exact ⟨a1, le_of_eq a2.symm, a5, a6⟩
  | expr e =>
    simp only [processOrderKey] at h
    split at h
    · cases hc : checkGroupedLegality q.groupByVariables e "ORDER BY" with
      | error err => rw [hc] at h; exact Except.noConfusion h
      | ok u =>
        cases u
        rw [hc] at h
        rcases hbind : q.addInternalBind e with ⟨v, q3⟩
        rw [hbind] at h
        simp only [Except.ok.injEq] at h
        subst h
        obtain ⟨_, b2, b3, _, b5, _, b7, _⟩ := addInternalBind_core q e
        rw [hbind] at b2 b3 b5 b7
        exact ⟨b2, by rw [b3]; exact Nat.le_succ _, b5, b7⟩
    · set q1 : ParsedQuery := if e.containsAggregate = true then
        { q with implicitGroupByActive := true } else q with hq1
      have hq1v : q1.visibleVariables_ = q.visibleVariables_ ∧
          q1.numInternalVariables = q.numInternalVariables ∧
          q1.groupByVariables = q.groupByVariables ∧
          q1.havingClauses = q.havingClauses := by
        rw [hq1]; cases e.containsAggregate <;> simp
      cases hc : q1.checkUsedVariablesAreVisible e "ORDER BY" with
      | error err => rw [hc] at h; exact Except.noConfusion h
      | ok q2 =>
        rw [hc] at h
        simp only [Except.ok.injEq] at h
        subst h
        obtain ⟨a1, a2, _, _, a5, a6, _⟩ :=
          checkVarsVisible_core "ORDER BY" e.referencedVariables q1 q2 hc
        obtain ⟨_, b2, b3, _, b5, _, b7, _⟩ := addInternalBind_core q2 e
        refine ⟨?_, ?_, ?_, ?_⟩
        · simp only [b2]; rw [a1, hq1v.1]
        · simp only [b3]; rw [a2, hq1v.2.1]; exact Nat.le_succ _
        · simp only [b5]; rw [a5, hq1v.2.2.1]
        · simp only [b7]; rw [a6, hq1v.2.2.2]

theorem processOrderKeys_core (g : Bool) :
    ∀ (ks : List (OrderKey × Bool)) (q q' : ParsedQuery),
    processOrderKeys g q ks = .ok q' →
    q'.visibleVariables_ = q.visibleVariables_ ∧
    q.numInternalVariables ≤ q'.numInternalVariables ∧
    q'.groupByVariables = q.groupByVariables ∧
    q'.havingClauses = q.havingClauses := by
  intro ks
  induction ks with
  | nil =>
    intro q q' h
    unfold processOrderKeys at h
    simp only [Except.ok.injEq] at h
    subst h
    simp
  | cons k ks ih =>
    intro q q' h
    obtain ⟨kk, d⟩ := k
    unfold processOrderKeys at h
    cases hc : processOrderKey g q kk d with
    | error e => rw [hc] at h; exact Except.noConfusion h
    | ok q1 =>
      rw [hc] at h
      obtain ⟨a1, a2, a3, a4⟩ := processOrderKey_core g q kk d q1 hc
      obtain ⟨b1, b2, b3, b4⟩ := ih q1 q' h
      exact ⟨b1.trans a1, a2.trans b2, b3.trans a3, b4.trans a4⟩

theorem processGroupKey_core (q : ParsedQuery) (k : GroupKey)
    (q' : ParsedQuery) (h : processGroupKey q k = .ok q') :
    q'.visibleVariables_ = q.visibleVariables_ ∧
    q.numInternalVariables ≤ q'.numInternalVariables ∧
    q'.havingClauses = q.havingClauses := by
  cases k with
  | var v =>
    simp only [processGroupKey] at h
    cases hc : q.checkVariableIsVisible v "GROUP BY" with
    | error e => rw [hc] at h; exact Except.noConfusion h
    | ok q1 =>
      rw [hc] at h
      simp only [Except.ok.injEq] at h
      subst h
      obtain ⟨a1, a2, _, _, _, a6, _⟩ :=
        checkVariableIsVisible_core q v "GROUP BY" q1 hc
      exact ⟨a1, le_of_eq a2.symm, a6⟩
  | expr e =>
    simp only [processGroupKey] at h
    rcases hbind : q.addInternalBind e with ⟨v, q3⟩
    rw [hbind] at h
    simp only [Except.ok.injEq] at h
    subst h
    obtain ⟨_, b2, b3, _, _, _, b7, _⟩ := addInternalBind_core q e
    rw [hbind] at b2 b3 b7
    exact ⟨b2, by rw [b3]; exact Nat.le_succ _, b7⟩

theorem processGroupKeys_core :
    ∀ (ks : List GroupKey) (q q' : ParsedQuery),
    processGroupKeys q ks = .ok q' →
    q'.visibleVariables_ = q.visibleVariables_ ∧
    q.numInternalVariables ≤ q'.numInternalVariables ∧
    q'.havingClauses = q.havingClauses := by
  intro ks
  induction ks with
  | nil =>
    intro q q' h
    unfold processGroupKeys at h
    simp only [Except.ok.injEq] at h
    subst h
    simp
  | cons k ks ih =>
    intro q q' h
    unfold processGroupKeys at h
    cases hc : processGroupKey q k with
    | error e => rw [hc] at h; exact Except.noConfusion h
    | ok q1 =>
      rw [hc] at h
      obtain ⟨a1, a2, a3⟩ := processGroupKey_core q k q1 hc
      obtain ⟨b1, b2, b3⟩ := ih q1 q' h
      exact ⟨b1.trans a1, a2.trans b2, b3.trans a3⟩

theorem addHavingClause_core (q : ParsedQuery) (fs : List SparqlFilter)
    (g : Bool) (q' : ParsedQuery) (h : q.addHavingClause fs g = .ok q') :
    q' = { q with havingClauses := q.havingClauses ++ fs } := by
  unfold ParsedQuery.addHavingClause at h
  by_cases hg : (!g && !fs.isEmpty) = true
  · rw [if_pos hg] at h; exact Except.noConfusion h
  · rw [if_neg hg] at h
    cases hc : checkHavingFilters q.groupByVariables fs with
    | error e => rw [hc] at h; exact Except.noConfusion h
    | ok u =>
      cases u
      rw [hc] at h
      simp only [Except.ok.injEq] at h
      exact h.symm

/-! ## Variable registration (C7) -/

theorem register_mem (q : ParsedQuery) (v x : Variable) :
    x ∈ (q.registerVariableVisibleInQueryBody v).visibleVariables_ ↔
      x ∈ q.visibleVariables_ ∨ x = v := by
  unfold ParsedQuery.registerVariableVisibleInQueryBody
  by_cases hv : v ∈ q.visibleVariables_
  · rw [if_pos hv]
    constructor
    · exact Or.inl
    · rintro (h | rfl)
      · exact h
      · exact hv
  · rw [if_neg hv]
    simp

theorem register_nodup (q : ParsedQuery) (v : Variable)
    (h : q.visibleVariables_.Nodup) :
    (q.registerVariableVisibleInQueryBody v).visibleVariables_.Nodup := by
  unfold ParsedQuery.registerVariableVisibleInQueryBody
  by_cases hv : v ∈ q.visibleVariables_
  · rw [if_pos hv]; exact h
  · rw [if_neg hv]
    simp [List.nodup_append, h, hv]

theorem registerAll_mem :
    ∀ (vs : List Variable) (q : ParsedQuery) (x : Variable),
    x ∈ (q.registerVariablesVisibleInQueryBody vs).visibleVariables_ ↔
      x ∈ q.visibleVariables_ ∨ x ∈ vs := by
  intro vs
  induction vs with
  | nil => intro q x; simp [ParsedQuery.registerVariablesVisibleInQueryBody]
  | cons v vs ih =>
    intro q x
    unfold ParsedQuery.registerVariablesVisibleInQueryBody at ih ⊢
    rw [List.foldl_cons, ih, register_mem]
    simp [or_assoc]

theorem registerAll_nodup :
    ∀ (vs : List Variable) (q : ParsedQuery),
    q.visibleVariables_.Nodup →
    (q.registerVariablesVisibleInQueryBody vs).visibleVariables_.Nodup := by
  intro vs
  induction vs with
  | nil => intro q h; exact h
  | cons v vs ih =>
    intro q h
    unfold ParsedQuery.registerVariablesVisibleInQueryBody at ih ⊢
    rw [List.foldl_cons]
    exact ih _ (register_nodup q v h)

/-- **C7.** Registration of visible variables is idempotent (set semantics);
a newly registered variable is appended at the end, so
`getVisibleVariables` lists the registered variables in first-registered
order, without duplicates; and the sequence is unaffected by later
GROUP BY / HAVING / ORDER BY processing. -/
theorem registerVisible_idempotent_order (q : ParsedQuery) (v : Variable)
    (vs : List Variable) :
    (v ∈ q.getVisibleVariables →
      q.registerVariableVisibleInQueryBody v = q) ∧
    (v ∉ q.getVisibleVariables →
      (q.registerVariableVisibleInQueryBody v).getVisibleVariables =
        q.getVisibleVariables ++ [v]) ∧
    ((({} : ParsedQuery).registerVariablesVisibleInQueryBody
        vs).getVisibleVariables.Nodup ∧
      ∀ x, x ∈ (({} : ParsedQuery).registerVariablesVisibleInQueryBody
          vs).getVisibleVariables ↔ x ∈ vs) ∧
    (∀ fs g q', q.addHavingClause fs g = .ok q' →
      q'.getVisibleVariables = q.getVisibleVariables) ∧
    (∀ ks q', q.addGroupByClause ks = .ok q' →
      q'.getVisibleVariables = q.getVisibleVariables) ∧
    (∀ ks g note q', q.addOrderByClause ks g note = .ok q' →
      q'.getVisibleVariables = q.getVisibleVariables) := by
  refine ⟨?_, ?_, ⟨?_, ?_⟩, ?_, ?_, ?_⟩
  · intro hv
    have hv' : v ∈ q.visibleVariables_ := hv
    unfold ParsedQuery.registerVariableVisibleInQueryBody
    rw [if_pos hv']
  · intro hv
    have hv' : v ∉ q.visibleVariables_ := hv
    unfold ParsedQuery.getVisibleVariables
      ParsedQuery.registerVariableVisibleInQueryBody
    rw [if_neg hv']
  · exact registerAll_nodup vs {} (by simp)
  · intro x
    rw [ParsedQuery.getVisibleVariables, registerAll_mem]
    simp
  · intro fs g q' h
    rw [addHavingClause_core q fs g q' h]
    rfl
  · intro ks q' h
    unfold ParsedQuery.addGroupByClause at h
    exact (processGroupKeys_core ks q q' h).1
  · intro ks g note q' h
    unfold ParsedQuery.addOrderByClause at h
    exact (processOrderKeys_core g ks q q' h).1

/-- Closed witness for `registerVisible_idempotent_order`: registering `?a`
twice keeps the sequence `[?a, ?b]`; registering a fresh `?b` appends it. -/
theorem registerVisible_idempotent_order_witness :
    (({ visibleVariables_ := [⟨"?a"⟩, ⟨"?b"⟩] } :
        ParsedQuery).registerVariableVisibleInQueryBody ⟨"?a"⟩ =
      { visibleVariables_ := [⟨"?a"⟩, ⟨"?b"⟩] }) ∧
    (({ visibleVariables_ := [⟨"?a"⟩] } :
        ParsedQuery).registerVariableVisibleInQueryBody
          ⟨"?b"⟩).getVisibleVariables = [⟨"?a"⟩, ⟨"?b"⟩] :=
  ⟨(registerVisible_idempotent_order
      { visibleVariables_ := [⟨"?a"⟩, ⟨"?b"⟩] } ⟨"?a"⟩ []).1 (by decide),
   (registerVisible_idempotent_order
      { visibleVariables_ := [⟨"?a"⟩] } ⟨"?b"⟩ []).2.1 (by decide)⟩

/-! ## The strict/lenient policy fork (C8) -/

/-- **C8.** Under lenient policy `addWarningOrThrow m` appends `m` to the
`warnings()` sequence and does not fail; under strict policy it fails with
`UnboundVariableError` carrying exactly `m` (the state-passing embedding
returns no new state on failure, so `warnings()` of the query is
unchanged).  The fork is the only configuration-dependent behaviour: the
operations that do not go through `addWarningOrThrow` commute with changing
the policy flag. -/
theorem addWarningOrThrow_policy_fork (q : ParsedQuery) (m : String) :
    (q.strictPolicy = false →
      q.addWarningOrThrow m = .ok (q.addWarning m) ∧
      (q.addWarning m).warnings = q.warnings ++ [m]) ∧
    (q.strictPolicy = true →
      q.addWarningOrThrow m = .error (.UnboundVariableError m)) ∧
    (∀ b fs g,
      ParsedQuery.addHavingClause { q with strictPolicy := b } fs g =
        (q.addHavingClause fs g).map
          (fun r => { r with strictPolicy := b })) ∧
    (∀ b v,
      ParsedQuery.registerVariableVisibleInQueryBody
          { q with strictPolicy := b } v =
        { q.registerVariableVisibleInQueryBody v with strictPolicy := b }) ∧
    (∀ b,
      ParsedQuery.getNewInternalVariable { q with strictPolicy := b } =
        ((q.getNewInternalVariable).1,
         { (q.getNewInternalVariable).2 with strictPolicy := b })) ∧
    (∀ b, ParsedQuery.getAliases { q with strictPolicy := b } =
      q.getAliases) := by
  refine ⟨?_, ?_, ?_, ?_, ?_, ?_⟩
  · intro hs
    unfold ParsedQuery.addWarningOrThrow
    rw [hs]
    exact ⟨rfl, rfl⟩
  · intro hs
    unfold ParsedQuery.addWarningOrThrow
    rw [hs]
    rfl
  · intro b fs g
    unfold ParsedQuery.addHavingClause
    by_cases hg : (!g && !fs.isEmpty) = true
    · rw [if_pos hg, if_pos hg]
      rfl
    · rw [if_neg hg, if_neg hg]
      cases hc : checkHavingFilters q.groupByVariables fs with
      | error e => simp only [hc]; rfl
      | ok u => cases u; simp only [hc]; rfl
  · intro b v
    by_cases hv : v ∈ q.visibleVariables_ <;>
      simp [ParsedQuery.registerVariableVisibleInQueryBody, hv]
  · intro b
    rfl
  · intro b
    rfl

/-- Closed witness for `addWarningOrThrow_policy_fork`: the lenient query
appends the warning, the strict query fails with the message. -/
theorem addWarningOrThrow_policy_fork_witness :
    (({ strictPolicy := false } : ParsedQuery).addWarningOrThrow "x" =
        .ok (({ strictPolicy := false } : ParsedQuery).addWarning "x") ∧
      (({ strictPolicy := false } : ParsedQuery).addWarning "x").warnings =
        ({ strictPolicy := false } : ParsedQuery).warnings ++ ["x"]) ∧
    ({ strictPolicy := true } : ParsedQuery).addWarningOrThrow "x" =
      .error (.UnboundVariableError "x") :=
  ⟨(addWarningOrThrow_policy_fork { strictPolicy := false } "x").1 rfl,
   (addWarningOrThrow_policy_fork { strictPolicy := true } "x").2.1 rfl⟩

/-! ## ORDER BY processing (C3, C4) -/

theorem addInternalBind_eq (q : ParsedQuery) (e : Expression) :
    q.addInternalBind e =
      (mkInternalVariable q.numInternalVariables,
       { q with
         numInternalVariables := q.numInternalVariables + 1,
         rootGraphPattern := ⟨q.rootGraphPattern.graphPatterns ++
           [.bind e (mkInternalVariable q.numInternalVariables)]⟩ }) := by
  simp [ParsedQuery.addInternalBind, ParsedQuery.getNewInternalVariable,
    ParsedQuery.addBind]

theorem checkVarsVisible_all_visible (loc : String) :
    ∀ (vs : List Variable) (q : ParsedQuery),
    (∀ v ∈ vs, v ∈ q.visibleVariables_) →
    checkVarsVisible loc q vs = .ok q := by
  intro vs
  induction vs with
  | nil => intro q _; rfl
  | cons v vs ih =>
    intro q hall
    unfold checkVarsVisible
    have hv : q.checkVariableIsVisible v loc = .ok q := by
      unfold ParsedQuery.checkVariableIsVisible
      rw [if_pos (hall v (by simp))]
    rw [hv]
    exact ih q (fun w hw => hall w (by simp [hw]))

theorem addWarningOrThrow_error (q : ParsedQuery) (m : String)
    (e : QueryError) (h : q.addWarningOrThrow m = .error e) :
    e = .UnboundVariableError m := by
  unfold ParsedQuery.addWarningOrThrow at h
  cases hs : q.strictPolicy with
  | true =>
    rw [hs] at h
    simp only [if_true, Except.error.injEq] at h
    exact h.symm
  | false =>
    rw [hs] at h
    simp only [Bool.false_eq_true, if_false] at h
    exact Except.noConfusion h

theorem checkVariableIsVisible_error (q : ParsedQuery) (v : Variable)
    (loc : String) (e : QueryError)
    (h : q.checkVariableIsVisible v loc = .error e) :
    ∃ msg, e = .UnboundVariableError msg := by
  unfold ParsedQuery.checkVariableIsVisible at h
  by_cases hv : v ∈ q.visibleVariables_
  · rw [if_pos hv] at h
    exact Except.noConfusion h
  · rw [if_neg hv] at h
    exact ⟨_, addWarningOrThrow_error _ _ _ h⟩

theorem checkVarsVisible_error (loc : String) :
    ∀ (vs : List Variable) (q : ParsedQuery) (e : QueryError),
    checkVarsVisible loc q vs = .error e →
    ∃ msg, e = .UnboundVariableError msg := by
  intro vs
  induction vs with
  | nil =>
    intro q e h
    unfold checkVarsVisible at h
    exact Except.noConfusion h
  | cons v vs ih =>
    intro q e h
    unfold checkVarsVisible at h
    cases hc : q.checkVariableIsVisible v loc with
    | error e1 =>
      rw [hc] at h
      simp only [Except.error.injEq] at h
      subst h
      exact checkVariableIsVisible_error q v loc e1 hc
    | ok q1 =>
      rw [hc] at h
      exact ih q1 e h

theorem processOrderKey_false_error (q : ParsedQuery) (k : OrderKey)
    (d : Bool) (r : QueryError)
    (h : processOrderKey false q k d = .error r) :
    ∃ msg, r = .UnboundVariableError msg := by
  cases k with
  | var v =>
    simp only [processOrderKey] at h
    rw [if_neg Bool.false_ne_true] at h
    cases hc : q.checkVariableIsVisible v "ORDER BY" with
    | error e1 =>
      rw [hc] at h
      simp only [Except.error.injEq] at h
      subst h
      exact checkVariableIsVisible_error q v "ORDER BY" e1 hc
    | ok q1 => rw [hc] at h; exact Except.noConfusion h
  | expr e =>
    simp only [processOrderKey] at h
    rw [if_neg Bool.false_ne_true] at h
    set q1 : ParsedQuery := if e.containsAggregate = true then
      { q with implicitGroupByActive := true } else q with hq1
    cases hc : q1.checkUsedVariablesAreVisible e "ORDER BY" with
    | error e1 =>
      rw [hc] at h
      simp only [Except.error.injEq] at h
      subst h
      exact checkVarsVisible_error "ORDER BY" e.referencedVariables q1 e1 hc
    | ok q2 =>
      rw [hc] at h
      exact Except.noConfusion h

theorem processOrderKeys_false_error :
    ∀ (ks : List (OrderKey × Bool)) (q : ParsedQuery) (r : QueryError),
    processOrderKeys false q ks = .error r →
    ∃ msg, r = .UnboundVariableError msg := by
  intro ks
  induction ks with
  | nil =>
    intro q r h
    unfold processOrderKeys at h
    exact Except.noConfusion h
  | cons k ks ih =>
    intro q r h
    obtain ⟨kk, d⟩ := k
    unfold processOrderKeys at h
    cases hc : processOrderKey false q kk d with
    | error e1 =>
      rw [hc] at h
      simp only [Except.error.injEq] at h
      subst h
      exact processOrderKey_false_error q kk d e1 hc
    | ok q1 =>
      rw [hc] at h
      exact ih q1 r h

/-- **C3.** An ORDER BY expression key containing an aggregate, processed
with no explicit GROUP BY, succeeds (given its variables are visible in the
body) and records implicit grouping as active; without a GROUP BY,
`addOrderByClause` never fails with an ungrouped-variable violation. -/
theorem addOrderByClause_implicit_grouping (q : ParsedQuery)
    (e : Expression) (d : Bool) (note : String)
    (hagg : e.containsAggregate = true)
    (hvis : ∀ v ∈ e.referencedVariables, v ∈ q.visibleVariables_) :
    (∃ q', q.addOrderByClause [(.expr e, d)] false note = .ok q' ∧
      q'.implicitGroupByActive = true) ∧
    (∀ ks note2 r, q.addOrderByClause ks false note2 = .error r →
      ∀ v c, r ≠ .UngroupedVariableError v c) := by
  constructor
  · have hchk : checkVarsVisible "ORDER BY"
        { q with implicitGroupByActive := true } e.referencedVariables =
        .ok { q with implicitGroupByActive := true } :=
      checkVarsVisible_all_visible "ORDER BY" e.referencedVariables
        { q with implicitGroupByActive := true } hvis
    refine ⟨{ q with
        implicitGroupByActive := true,
        numInternalVariables := q.numInternalVariables + 1,
        rootGraphPattern := ⟨q.rootGraphPattern.graphPatterns ++
          [.bind e (mkInternalVariable q.numInternalVariables)]⟩,
        orderBy := q.orderBy ++
          [(mkInternalVariable q.numInternalVariables, d)] }, ?_, ?_⟩
    · unfold ParsedQuery.addOrderByClause
      unfold processOrderKeys
      simp only [processOrderKey]
      rw [if_neg Bool.false_ne_true, hagg]
      simp only [if_true]
      unfold ParsedQuery.checkUsedVariablesAreVisible
      rw [hchk]
      simp only [addInternalBind_eq]
      unfold processOrderKeys
      rfl
    · rfl
  · intro ks note2 r h v c
    unfold ParsedQuery.addOrderByClause at h
    obtain ⟨msg, rfl⟩ := processOrderKeys_false_error ks q r h
    exact fun habs => QueryError.noConfusion habs

/-- Closed witness for `addOrderByClause_implicit_grouping`: ordering by
`AVG(?a)` with `?a` visible and no GROUP BY succeeds and sets the implicit
grouping flag. -/
theorem addOrderByClause_implicit_grouping_witness :
    ∃ q', ({ visibleVariables_ := [⟨"?a"⟩] } : ParsedQuery).addOrderByClause
        [(.expr ⟨[(⟨"?a"⟩, true)]⟩, false)] false "note" = .ok q' ∧
      q'.implicitGroupByActive = true :=
  (addOrderByClause_implicit_grouping { visibleVariables_ := [⟨"?a"⟩] }
    ⟨[(⟨"?a"⟩, true)]⟩ false "note" (by decide) (by decide)).1

/-- **C4.** An ORDER BY clause whose single key is a non-aggregate
expression over visible variables, with no GROUP BY, succeeds, creates
exactly one internal variable, appends exactly one synthetic BIND node as a
child of the root pattern, and produces `orderBy = [(internalVar, d)]`. -/
theorem addOrderByClause_expression_key (q : ParsedQuery) (e : Expression)
    (d : Bool) (note : String)
    (hagg : e.containsAggregate = false)
    (hvis : ∀ v ∈ e.referencedVariables, v ∈ q.visibleVariables_)
    (hord : q.orderBy = []) :
    q.addOrderByClause [(.expr e, d)] false note =
      .ok { q with
        numInternalVariables := q.numInternalVariables + 1,
        rootGraphPattern := ⟨q.rootGraphPattern.graphPatterns ++
          [.bind e (mkInternalVariable q.numInternalVariables)]⟩,
        orderBy := [(mkInternalVariable q.numInternalVariables, d)] } := by
  have hchk : checkVarsVisible "ORDER BY" q e.referencedVariables = .ok q :=
    checkVarsVisible_all_visible "ORDER BY" e.referencedVariables q hvis
  unfold ParsedQuery.addOrderByClause
  unfold processOrderKeys
  simp only [processOrderKey]
  rw [if_neg Bool.false_ne_true, hagg]
  simp only [Bool.false_eq_true, if_false]
  unfold ParsedQuery.checkUsedVariablesAreVisible
  rw [hchk]
  simp only [addInternalBind_eq]
  unfold processOrderKeys
  rw [hord]
  rfl

/-- Closed witness for `addOrderByClause_expression_key`: ordering by the
expression `?p + 1` (descending) with `?p` visible creates one internal
variable, one BIND child and the singleton orderBy. -/
theorem addOrderByClause_expression_key_witness :
    ({ visibleVariables_ := [⟨"?p"⟩] } : ParsedQuery).addOrderByClause
        [(.expr ⟨[(⟨"?p"⟩, false)]⟩, true)] false "note" =
      .ok { ({ visibleVariables_ := [⟨"?p"⟩] } : ParsedQuery) with
        numInternalVariables := 1,
        rootGraphPattern :=
          ⟨[.bind ⟨[(⟨"?p"⟩, false)]⟩ (mkInternalVariable 0)]⟩,
        orderBy := [(mkInternalVariable 0, true)] } :=
  addOrderByClause_expression_key { visibleVariables_ := [⟨"?p"⟩] }
    ⟨[(⟨"?p"⟩, false)]⟩ true "note" (by decide) (by decide) rfl

/-! ## Decimal rendering and the internal name space (C5, C6) -/

theorem digitChar_inj : ∀ a < 10, ∀ b < 10,
    Nat.digitChar a = Nat.digitChar b → a = b := by decide

theorem decChars_zero : decChars 0 = [] := by simp [decChars]

theorem decChars_succ (n : Nat) :
    decChars (n + 1) =
      decChars ((n + 1) / 10) ++ [Nat.digitChar ((n + 1) % 10)] := by
  rw [decChars]

theorem decChars_ne_nil (n : Nat) (h : n ≠ 0) : decChars n ≠ [] := by
  cases n with
  | zero => exact absurd rfl h
  | succ a =>
    rw [decChars_succ]
    simp

theorem decChars_inj : ∀ m n, decChars m = decChars n → m = n := by
  intro m
  induction m using Nat.strong_induction_on with
  | _ m ih =>
    intro n h
    cases m with
    | zero =>
      cases n with
      | zero => rfl
      | succ b =>
        rw [decChars_zero] at h
        exact absurd h.symm (decChars_ne_nil (b + 1) (Nat.succ_ne_zero b))
    | succ a =>
      cases n with
      | zero =>
        rw [decChars_zero] at h
        exact absurd h (decChars_ne_nil (a + 1) (Nat.succ_ne_zero a))
      | succ b =>
        rw [decChars_succ a, decChars_succ b] at h
        obtain ⟨h1, h2⟩ := List.append_inj' h rfl
        have hm : (a + 1) % 10 = (b + 1) % 10 := by
          have hd : Nat.digitChar ((a + 1) % 10) =
              Nat.digitChar ((b + 1) % 10) := by simpa using h2
          exact digitChar_inj _ (Nat.mod_lt _ (by norm_num)) _
            (Nat.mod_lt _ (by norm_num)) hd
        have hdiv : (a + 1) / 10 = (b + 1) / 10 :=
          ih ((a + 1) / 10) (Nat.div_lt_self (Nat.succ_pos a) (by norm_num))
            ((b + 1) / 10) h1
        omega

theorem decRepr_inj : ∀ m n, decRepr m = decRepr n → m = n := by
  have key : ∀ b, decRepr (b + 1) ≠ "0" := by
    intro b h
    unfold decRepr at h
    rw [if_neg (Nat.succ_ne_zero b)] at h
    have hd : decChars (b + 1) = ['0'] := congrArg String.data h
    rw [decChars_succ b] at hd
    have hd' : decChars ((b + 1) / 10) ++ [Nat.digitChar ((b + 1) % 10)] =
        ([] : List Char) ++ ['0'] := by simpa using hd
    obtain ⟨h1, h2⟩ := List.append_inj' hd' rfl
    have hdiv : (b + 1) / 10 = 0 := by
      by_contra hne
      exact decChars_ne_nil _ hne h1
    have hmod : (b + 1) % 10 = 0 := by
      have : Nat.digitChar ((b + 1) % 10) = Nat.digitChar 0 := by
        simpa using h2
      exact digitChar_inj _ (Nat.mod_lt _ (by norm_num)) 0 (by norm_num) this
    omega
  intro m n h
  cases m with
  | zero =>
    cases n with
    | zero => rfl
    | succ b =>
      rw [show decRepr 0 = "0" from rfl] at h
      exact absurd h.symm (key b)
  | succ a =>
    cases n with
    | zero =>
      rw [show decRepr 0 = "0" from rfl] at h
      exact absurd h (key a)
    | succ b =>
      unfold decRepr at h
      rw [if_neg (Nat.succ_ne_zero a), if_neg (Nat.succ_ne_zero b)] at h
      have hd : decChars (a + 1) = decChars (b + 1) :=
        congrArg String.data h
      exact decChars_inj _ _ hd

theorem mkInternalVariable_inj (m n : Nat)
    (h : mkInternalVariable m = mkInternalVariable n) : m = n := by
  unfold mkInternalVariable at h
  have hs : internalVariableBase ++ decRepr m =
      internalVariableBase ++ decRepr n := congrArg Variable.name h
  have hdata : internalVariableBase.data ++ (decRepr m).data =
      internalVariableBase.data ++ (decRepr n).data :=
    congrArg String.data hs
  have hd : (decRepr m).data = (decRepr n).data :=
    List.append_cancel_left hdata
  exact decRepr_inj m n (congrArg String.mk hd)

theorem mkInternalVariable_reserved (n : Nat) :
    startsWithReserved (mkInternalVariable n).name := by
  unfold startsWithReserved mkInternalVariable
  show ((internalVariableBase ++ decRepr n).data).take _ = _
  have hsplit : (internalVariableBase ++ decRepr n).data =
      reservedBase.data ++ ("variable_".data ++ (decRepr n).data) := by
    rw [show internalVariableBase = reservedBase ++ "variable_" from rfl]
    show (reservedBase.data ++ "variable_".data) ++ (decRepr n).data = _
    rw [List.append_assoc]
  rw [hsplit, List.take_left]

theorem blankNode_reserved (l : String) :
    startsWithReserved (ParsedQuery.blankNodeToInternalVariable l).name := by
  unfold startsWithReserved ParsedQuery.blankNodeToInternalVariable
  show ((blankNodeBase ++ String.mk (l.data.drop 2)).data).take _ = _
  have hsplit : (blankNodeBase ++ String.mk (l.data.drop 2)).data =
      reservedBase.data ++ ("blank_node_".data ++ l.data.drop 2) := by
    rw [show blankNodeBase = reservedBase ++ "blank_node_" from rfl]
    show (reservedBase.data ++ "blank_node_".data) ++ l.data.drop 2 = _
    rw [List.append_assoc]
  rw [hsplit, List.take_left]

/-- **C6.** `blankNodeToInternalVariable` is deterministic per label (the
same label always yields the same variable), injective on blank-node labels
(which start with `_:`), and its results never collide with counter-derived
internal names or with user-supplied names (which cannot carry the reserved
mark). -/
theorem blankNodeToInternalVariable_stable (l1 l2 : String) (n : Nat)
    (user : String) :
    (ParsedQuery.blankNodeToInternalVariable l1 =
      ParsedQuery.blankNodeToInternalVariable l1) ∧
    (l1.data.take 2 = ['_', ':'] → l2.data.take 2 = ['_', ':'] →
      ParsedQuery.blankNodeToInternalVariable l1 =
        ParsedQuery.blankNodeToInternalVariable l2 → l1 = l2) ∧
    (ParsedQuery.blankNodeToInternalVariable l1 ≠ mkInternalVariable n) ∧
    (¬ startsWithReserved user →
      (ParsedQuery.blankNodeToInternalVariable l1).name ≠ user) := by
  refine ⟨rfl, ?_, ?_, ?_⟩
  · intro h1 h2 heq
    unfold ParsedQuery.blankNodeToInternalVariable at heq
    have hs : blankNodeBase ++ String.mk (l1.data.drop 2) =
        blankNodeBase ++ String.mk (l2.data.drop 2) :=
      congrArg Variable.name heq
    have hdata : blankNodeBase.data ++ l1.data.drop 2 =
        blankNodeBase.data ++ l2.data.drop 2 := congrArg String.data hs
    have hdrop := List.append_cancel_left hdata
    have hd : l1.data = l2.data := by
      calc l1.data = l1.data.take 2 ++ l1.data.drop 2 :=
            (List.take_append_drop 2 l1.data).symm
        _ = ['_', ':'] ++ l1.data.drop 2 := by rw [h1]
        _ = ['_', ':'] ++ l2.data.drop 2 := by rw [hdrop]
        _ = l2.data.take 2 ++ l2.data.drop 2 := by rw [h2]
        _ = l2.data := List.take_append_drop 2 l2.data
    exact congrArg String.mk hd
  · intro heq
    have hs : (ParsedQuery.blankNodeToInternalVariable l1).name =
        (mkInternalVariable n).name := congrArg Variable.name heq
    have hdata : blankNodeBase.data ++ l1.data.drop 2 =
        internalVariableBase.data ++ (decRepr n).data :=
      congrArg String.data hs
    have h19 := congrArg (List.take 19) hdata
    rw [List.take_append_of_le_length
          (by decide : (19 : Nat) ≤ blankNodeBase.data.length),
        List.take_append_of_le_length
          (by decide : (19 : Nat) ≤ internalVariableBase.data.length)]
      at h19
    exact absurd h19 (by decide)
  · intro huser heq
    exact huser (heq ▸ blankNode_reserved l1)

/-- Closed witness for `blankNodeToInternalVariable_stable`: the variables
for `_:x` and `_:y` differ, and the one for `_:x` differs from the first
counter-derived internal variable. -/
theorem blankNodeToInternalVariable_stable_witness :
    ParsedQuery.blankNodeToInternalVariable "_:x" ≠
      ParsedQuery.blankNodeToInternalVariable "_:y" ∧
    ParsedQuery.blankNodeToInternalVariable "_:x" ≠ mkInternalVariable 0 :=
  ⟨fun heq => by
      have h := (blankNodeToInternalVariable_stable "_:x" "_:y" 0 "?u").2.1
        (by decide) (by decide) heq
      exact absurd h (by decide),
   (blankNodeToInternalVariable_stable "_:x" "_:y" 0 "?u").2.2.1⟩

theorem register_num (q : ParsedQuery) (v : Variable) :
    (q.registerVariableVisibleInQueryBody v).numInternalVariables =
      q.numInternalVariables := by
  unfold ParsedQuery.registerVariableVisibleInQueryBody
  by_cases hv : v ∈ q.visibleVariables_ <;> simp [hv]

theorem registerAll_num : ∀ (vs : List Variable) (q : ParsedQuery),
    (q.registerVariablesVisibleInQueryBody vs).numInternalVariables =
      q.numInternalVariables := by
  intro vs
  induction vs with
  | nil => intro q; rfl
  | cons v vs ih =>
    intro q
    unfold ParsedQuery.registerVariablesVisibleInQueryBody at ih ⊢
    rw [List.foldl_cons, ih, register_num]

theorem applyOperation_monotone (q : ParsedQuery) (op : Operation)
    (q' : ParsedQuery) (h : applyOperation q op = .ok q') :
    q.numInternalVariables ≤ q'.numInternalVariables := by
  cases op with
  | registerVisible v =>
    simp only [applyOperation, Except.ok.injEq] at h
    subst h
    exact le_of_eq (register_num q v).symm
  | registerVisibles vs =>
    simp only [applyOperation, Except.ok.injEq] at h
    subst h
    exact le_of_eq (registerAll_num vs q).symm
  | warnOp m =>
    simp only [applyOperation, Except.ok.injEq] at h
    subst h
    exact le_refl _
  | warnOrThrowOp m =>
    simp only [applyOperation] at h
    unfold ParsedQuery.addWarningOrThrow at h
    cases hs : q.strictPolicy with
    | true => rw [hs] at h; simp at h
    | false =>
      rw [hs] at h
      simp only [Bool.false_eq_true, if_false, Except.ok.injEq] at h
      subst h
      exact le_refl _
  | groupByOp ks =>
    simp only [applyOperation] at h
    exact (processGroupKeys_core ks q q' h).2.1
  | havingOp fs g =>
    simp only [applyOperation] at h
    rw [addHavingClause_core q fs g q' h]
  | orderByOp ks g note =>
    simp only [applyOperation] at h
    exact (processOrderKeys_core g ks q q' h).2.1
  | newInternalVariableOp =>
    simp only [applyOperation, Except.ok.injEq] at h
    subst h
    exact Nat.le_succ _
  | internalBindOp e =>
    simp only [applyOperation, Except.ok.injEq] at h
    subst h
    rw [(addInternalBind_core q e).2.2.1]
    exact Nat.le_succ _

theorem iterateNewInternal_eq : ∀ (n : Nat) (q : ParsedQuery),
    iterateNewInternal q n = (List.range n).map
      (fun k => mkInternalVariable (q.numInternalVariables + k)) := by
  intro n
  induction n with
  | zero => intro q; rfl
  | succ n ih =>
    intro q
    rw [show iterateNewInternal q (n + 1) =
      mkInternalVariable q.numInternalVariables ::
        iterateNewInternal
          { q with numInternalVariables := q.numInternalVariables + 1 } n
      from rfl]
    rw [ih, List.range_succ_eq_map]
    simp only [List.map_cons, List.map_map]
    refine congrArg₂ List.cons (by simp) ?_
    apply List.map_congr_left
    intro a _
    exact congrArg mkInternalVariable (by omega)

theorem iterateNewInternal_nodup (q : ParsedQuery) (n : Nat) :
    (iterateNewInternal q n).Nodup := by
  rw [iterateNewInternal_eq]
  refine List.Nodup.map ?_ (List.nodup_range n)
  intro a b hab
  have := mkInternalVariable_inj _ _ hab
  omega

/-- **C5.** The variables returned by `N` consecutive calls of
`getNewInternalVariable` are pairwise distinct and distinct from every
user-supplied variable name (user syntax cannot carry the reserved internal
mark), and the internal-variable counter never decreases across any
operation of the layer. -/
theorem internal_names_unique (q : ParsedQuery) (N : Nat) (user : String) :
    (iterateNewInternal q N).Nodup ∧
    (¬ startsWithReserved user →
      ∀ v ∈ iterateNewInternal q N, v.name ≠ user) ∧
    (∀ op q', applyOperation q op = .ok q' →
      q.numInternalVariables ≤ q'.numInternalVariables) := by
  refine ⟨iterateNewInternal_nodup q N, ?_, ?_⟩
  · intro huser v hv hname
    rw [iterateNewInternal_eq] at hv
    obtain ⟨k, _, rfl⟩ := List.mem_map.mp hv
    exact huser (hname ▸ mkInternalVariable_reserved _)
  · intro op q' h
    exact applyOperation_monotone q op q' h

/-- Closed witness for `internal_names_unique`: three fresh calls on an
empty query yield pairwise distinct names, none equal to the user name
`?x`, and taking one fresh variable does not decrease the counter. -/
theorem internal_names_unique_witness :
    (iterateNewInternal {} 3).Nodup ∧
    (∀ v ∈ iterateNewInternal {} 3, v.name ≠ "?x") ∧
    ({} : ParsedQuery).numInternalVariables ≤
      (({} : ParsedQuery).getNewInternalVariable).2.numInternalVariables :=
  ⟨(internal_names_unique {} 3 "?x").1,
   (internal_names_unique {} 3 "?x").2.1 (by decide),
   (internal_names_unique {} 3 "?x").2.2 .newInternalVariableOp _ rfl⟩

end QLever
